import Mathlib

/-!
Verification of the `ProxyServer` class in src/proxy/server.py (zondatw/zoxy).

The development shallowly embeds the pieces of the program that the claims are
about: the bidirectional relay loop `pipe_data`, the idle-threshold arithmetic
from `__init__`, the access-control table (`__get_init_access_table`,
`is_testee_in_access_table`, and the accept-loop policy check in `listen`),
the destination resolver `_parse_dest_url` (together with the fragment of
`urllib.parse.urlparse` it relies on), and the per-connection supervisor
(`proxy_thread`, `get_dest_socket`, `pipe`) as a trace of socket operations.

Byte strings are modelled as `List Nat`, text as `List Char` (the program only
handles ASCII in the modelled paths). Machine integers do not overflow in any
modelled computation, so plain `Nat` is used.
-/

/-! ## The relay loop `pipe_data` (src/proxy/server.py lines 161-191) -/

/-- Combined outcome of one direction's `recv` + `sendall` try-block inside one
iteration of `pipe_data` (lines 168-172 for dest→src, 173-177 for src→dest):
`ok data` means `recv` returned `data` and no exception escaped the block (a
`socket.error` raised by the subsequent `sendall` is caught by the same inner
handler and leaves the already-received bytes in the local variable, which is
observationally the same as a successful send as far as `pipe_data`'s state is
concerned); `sockErr` means `recv` raised `socket.error` — which covers both a
timeout (`socket.timeout` is a subclass of `OSError = socket.error`) and a hard
transport failure — so the direction's buffer stays at `b""` for this cycle;
`fatal` means the block raised an exception that is not a `socket.error`, which
escapes the inner handlers and is caught by the outer `except Exception` of
`pipe_data`. -/
inductive RecvResult where
  | ok (data : List Nat)
  | sockErr
  | fatal
deriving DecidableEq

/-- The bytes a direction contributed this cycle: the received data on `ok`,
`b""` when the inner handler swallowed a `socket.error` (the local variable was
initialised to `b""` at the top of the iteration, lines 166-167). -/
def RecvResult.bytes : RecvResult → List Nat
  | .ok data => data
  | .sockErr => []
  | .fatal => []

/-- Whether the try-block's exception escapes to the outer handler. -/
def RecvResult.isFatal : RecvResult → Bool
  | .fatal => true
  | _ => false

/-- Result of the `while True` loop of `pipe_data`: `finished data` when the
idle-counter break was taken with `response_data = data`, `exn` when an
exception reached the outer `except Exception` handler. -/
inductive LoopOutcome where
  | finished (data : List Nat)
  | exn
deriving DecidableEq

/-- The `while True` loop of `pipe_data` (lines 165-186), one fuel unit per
iteration; `none` means the fuel bound was exhausted with the loop still
running. `destEv i` / `srcEv i` are the outcomes of the i-th iteration's
dest-side and src-side try-blocks (each iteration performs exactly one `recv`
per socket), `count` is the idle counter, `acc` is `response_data`. In the
both-empty branch the code's conditional append `response_data +=
d_to_s_response_data` is a no-op (the dest bytes are `b""` there), so `acc` is
threaded unchanged; in the other branch the append happens exactly when the
dest bytes are nonempty, as in lines 179-180. The break condition mirrors
lines 181-184: increment `count`, break once it reaches
`self.__max_pipe_timeout`. -/
def pipeDataLoop (maxPipe : Nat) (destEv srcEv : Nat → RecvResult) :
    Nat → Nat → Nat → List Nat → Option LoopOutcome
  | 0, _, _, _ => none
  | fuel + 1, i, count, acc =>
    if (destEv i).isFatal || (srcEv i).isFatal then some LoopOutcome.exn
    else if (destEv i).bytes = [] ∧ (srcEv i).bytes = [] then
      if maxPipe ≤ count + 1 then some (LoopOutcome.finished acc)
      else pipeDataLoop maxPipe destEv srcEv fuel (i + 1) (count + 1) acc
    else
      pipeDataLoop maxPipe destEv srcEv fuel (i + 1) 0
        (if (destEv i).bytes = [] then acc else acc ++ (destEv i).bytes)

/-- `pipe_data` itself (lines 161-191): runs the loop from iteration 0 with a
zero idle counter and empty `response_data`; the outer `except Exception`
handler (lines 187-189) replaces `response_data` by `b""` when an exception
aborted the loop, and the function then returns `response_data` — it never
re-raises. `none` again means the fuel bound was insufficient. -/
def pipe_data (maxPipe : Nat) (destEv srcEv : Nat → RecvResult) (fuel : Nat) :
    Option (List Nat) :=
  (pipeDataLoop maxPipe destEv srcEv fuel 0 0 []).map
    (fun o => match o with
      | LoopOutcome.finished data => data
      | LoopOutcome.exn => [])

/-- Concatenation of the dest→src bytes of iterations `i, i+1, ..., i+n-1`. -/
def destBytesRange (destEv : Nat → RecvResult) : Nat → Nat → List Nat
  | _, 0 => []
  | i, n + 1 => (destEv i).bytes ++ destBytesRange destEv (i + 1) n

/-! ## Idle-threshold arithmetic (src/proxy/server.py lines 26-28) -/

/-- `self.__dest_connection_timeout = 1` (line 27), the design-default connect
timeout. -/
def dest_connection_timeout : Nat := 1

/-- `self.__max_pipe_timeout = 4 // self.__dest_connection_timeout // 2`
(line 28), as a function of the connect timeout it is derived from; Python's
`//` on non-negative integers is `Nat` division. -/
def max_pipe_timeout (dct : Nat) : Nat := 4 / dct / 2

/-! ## Access-control tables (src/proxy/server.py lines 193-222 and 55-72) -/

/-- An `ipaddress.IPv4Network` as held in the access tables: the 32-bit
address it was built from and a prefix length (`ip_network("10.0.0.0/8")`
gives address 10.0.0.0 and prefix length 8; a bare host string gives prefix
length 32). -/
structure IPNetwork where
  addr : Nat
  prefixLen : Nat
deriving DecidableEq

/-- Number of host bits of the network. -/
def IPNetwork.hostBits (n : IPNetwork) : Nat := 32 - n.prefixLen

/-- `IPv4Network.network_address` as an integer: the address with the host
bits masked off. -/
def IPNetwork.netAddr (n : IPNetwork) : Nat :=
  n.addr / 2 ^ n.hostBits * 2 ^ n.hostBits

/-- `IPv4Network.broadcast_address` as an integer: the last address of the
range. -/
def IPNetwork.bcastAddr (n : IPNetwork) : Nat :=
  n.netAddr + (2 ^ n.hostBits - 1)

/-- `a.supernet_of(b)` for two IPv4 networks; CPython implements it as
`_is_subnet_of(b, a)`, i.e. `a.network_address <= b.network_address and
b.broadcast_address <= a.broadcast_address` (range containment, which includes
equality). Both sides here are always IPv4, so the version check that CPython
performs first cannot fire. -/
def supernet_of (a b : IPNetwork) : Bool :=
  decide (a.netAddr ≤ b.netAddr) && decide (b.bcastAddr ≤ a.bcastAddr)

/-- `ipaddress.ip_network(host)` for a bare candidate host, as built at line
216: the single-address /32 network. -/
def host_network (host : Nat) : IPNetwork := ⟨host, 32⟩

/-- `IPv4Network.__eq__` (also its dict-key identity): same prefix length
(equivalently same netmask) and same network address. -/
def ipNetworkEq (a b : IPNetwork) : Bool :=
  decide (a.prefixLen = b.prefixLen) && decide (a.netAddr = b.netAddr)

/-- `chr(48 + d)`: the decimal digit character for `d < 10`. -/
def digitChar (d : Nat) : Char := Char.ofNat (48 + d)

/-- Python's `str` on a non-negative `int`: most-significant-first decimal
digits. -/
def natDec (n : Nat) : List Char :=
  if _h : n < 10 then [digitChar n]
  else natDec (n / 10) ++ [digitChar (n % 10)]
decreasing_by exact Nat.div_lt_self (by omega) (by omega)

/-- Decoder used only in proofs: `foldl`-evaluate a digit list back to a
number, starting from accumulator `a`. -/
def decDigitsFrom (a : Nat) (l : List Char) : Nat :=
  l.foldl (fun x c => 10 * x + (c.toNat - 48)) a

/-- A port specifier as it appears in a configured access list entry: a
concrete port number or the wildcard token `"*"`. -/
inductive PortIn where
  | num (n : Nat)
  | star
deriving DecidableEq

/-- `str(port)` as applied at line 206 when the entry is stored: the decimal
string for a concrete port, the one-character string `"*"` for the wildcard. -/
def portStr : PortIn → List Char
  | .num n => natDec n
  | .star => ['*']

/-- One `accesses[ipaddress.ip_network(ip_adr)].append(str(port))` step on the
`defaultdict(list)` of line 204, modelled as an insertion-ordered association
list: append to the existing entry of an equal network, else add a new entry
at the end. -/
def addAccess : List (IPNetwork × List (List Char)) → IPNetwork → List Char →
    List (IPNetwork × List (List Char))
  | [], net, p => [(net, [p])]
  | (n, ps) :: rest, net, p =>
    if ipNetworkEq n net then (n, ps ++ [p]) :: rest
    else (n, ps) :: addAccess rest net p

/-- `__get_init_access_table` (lines 203-207): fold the configured
`(network, port)` pairs into the table. -/
def get_init_access_table (l : List (IPNetwork × PortIn)) :
    List (IPNetwork × List (List Char)) :=
  l.foldl (fun acc e => addAccess acc e.1 (portStr e.2)) []

/-- `is_testee_in_access_table` (lines 215-222): linear scan over all
`(network, port-string list)` entries; a hit needs
`access_ip_address.supernet_of(tested_ip_address)` together with
`access_port == "*" or str(port) == access_port`; the dangling `for ... else`
returns `False` when no rule hit. -/
def is_testee_in_access_table (accesses : List (IPNetwork × List (List Char)))
    (host port : Nat) : Bool :=
  accesses.any (fun e =>
    e.2.any (fun ap =>
      supernet_of e.1 (host_network host) &&
        (decide (ap = ['*']) || decide (natDec port = ap))))

/-- The accept-loop policy decision of `listen` (lines 63-72) composed with
the constructor (lines 30-39): the block table is consulted only when the
configured blocked list was nonempty (`__enable_blocked_access`), then the
allow table only when the configured allowed list was nonempty
(`__enable_allowed_access`); a block-table hit or a missing allow-table hit
closes the client socket (`false`), otherwise the connection is handed to a
proxy thread (`true`). -/
def listen_admits (allowed blocked : List (IPNetwork × PortIn))
    (host port : Nat) : Bool :=
  if decide (blocked ≠ []) &&
      is_testee_in_access_table (get_init_access_table blocked) host port then
    false
  else if decide (allowed ≠ []) &&
      !is_testee_in_access_table (get_init_access_table allowed) host port then
    false
  else true

/-! ## The destination resolver `_parse_dest_url` (src/proxy/server.py lines
147-159) and the fragment of `urllib.parse.urlparse` it relies on.

`_parse_dest_url` only reads `uri.scheme`, `uri.hostname` and `uri.port`, and
those three are fully determined by `urlsplit`'s scheme/netloc extraction:
the netloc is carved out of the input before the fragment and query are split
off, so model functions for scheme, netloc, hostname and port suffice. The
model follows CPython 3.6-3.10 `urllib/parse.py` (the behaviour under which
this program runs; 3.11 additionally requires a scheme to start with a
letter, which changes nothing for any input considered in the theorems
below). Control-character stripping is not modelled (no modelled input
contains such characters). `.port` raises `ValueError` for a present but
non-decimal or out-of-range port token; no theorem below reaches such an
input, and the model returns `none` there. -/

/-- `scheme_chars` from `urllib.parse`. -/
def schemeChars : List Char :=
  ("abcdefghijklmnopqrstuvwxyzABCDEFGHIJKLMNOPQRSTUVWXYZ0123456789+-.").data

/-- Bool test that `needle` is an initial segment of the second list. -/
def startsWithCh : List Char → List Char → Bool
  | [], _ => true
  | _ :: _, [] => false
  | a :: as, b :: bs => decide (a = b) && startsWithCh as bs

/-- Python's `in` on strings: `needle` occurs contiguously somewhere. -/
def containsSeq (needle : List Char) : List Char → Bool
  | [] => needle.isEmpty
  | c :: rest => startsWithCh needle (c :: rest) || containsSeq needle rest

/-- Scheme extraction of `urlsplit`: walk to the first `':'`; `acc` holds the
characters already passed. A split happens iff the colon is not at position 0
and everything before it is in `scheme_chars` (CPython: `i = url.find(':')`,
`if i > 0`, then the all-chars check); otherwise the url is left whole. -/
def splitSchemeAux (acc : List Char) : List Char → Option (List Char × List Char)
  | [] => none
  | c :: rest =>
    if c = ':' then
      if acc ≠ [] ∧ acc.all (fun a => schemeChars.contains a) then some (acc, rest)
      else none
    else splitSchemeAux (acc ++ [c]) rest

/-- `(uri.scheme, remainder)`: the scheme is lowercased on extraction; on no
split the scheme is the empty string and the url is unchanged. -/
def splitScheme (url : List Char) : List Char × List Char :=
  match splitSchemeAux [] url with
  | some (s, rest) => (s.map Char.toLower, rest)
  | none => ([], url)

/-- `uri.netloc`: nonempty only when the post-scheme remainder starts with
`"//"`; it then extends to the first `'/'`, `'?'` or `'#'` (CPython
`_splitnetloc`). -/
def netlocOf (rest : List Char) : List Char :=
  if startsWithCh (("//").data) rest then
    (rest.drop 2).takeWhile (fun c => ¬(c = '/' ∨ c = '?' ∨ c = '#'))
  else []

/-- `netloc.rpartition('@')[2]`: drop everything up to the last `'@'`
(userinfo). -/
def afterLastAt (l : List Char) : List Char :=
  (l.reverse.takeWhile (fun c => c ≠ '@')).reverse

/-- `SplitResult._hostinfo`: the raw hostname part and, when present and
nonempty, the raw port token. In the bracketed (IPv6) branch the hostname is
the text inside `[...]` and the port is whatever follows the first `':'`
after the closing bracket; in the ordinary branch the netloc (after the
userinfo) is split at its first `':'`. A missing separator leaves the port
token empty, and `if not port: port = None` turns the empty token into no
port. -/
def hostinfoOf (netloc : List Char) : List Char × Option (List Char) :=
  let hi := afterLastAt netloc
  if hi.contains '[' then
    let bracketed := (hi.dropWhile (fun c => c ≠ '[')).drop 1
    let hname := bracketed.takeWhile (fun c => c ≠ ']')
    let afterBr := (bracketed.dropWhile (fun c => c ≠ ']')).drop 1
    let ptok := (afterBr.dropWhile (fun c => c ≠ ':')).drop 1
    (hname, if ptok = [] then none else some ptok)
  else
    let hname := hi.takeWhile (fun c => c ≠ ':')
    let ptok := (hi.dropWhile (fun c => c ≠ ':')).drop 1
    (hname, if ptok = [] then none else some ptok)

/-- `uri.hostname`: the hostname part lowercased, with the empty string
collapsed to `None` (`hostname.lower() or None`). -/
def uriHostname (netloc : List Char) : Option (List Char) :=
  let h := (hostinfoOf netloc).1.map Char.toLower
  if h = [] then none else some h

/-- `int(tok, 10)` on a plain decimal token. For a non-decimal token CPython
raises `ValueError` (and `int()` also tolerates sign/whitespace/underscore
forms this model omits); the `none` this model returns there is NOT the
program's behaviour, only a placeholder, so no theorem in this file may
invoke the port model on a present non-decimal token: the statements below
either supply a concrete plain-decimal token or assume no token is present
at all. -/
def parseDecimal (s : List Char) : Option Nat :=
  if s ≠ [] ∧ s.all (fun c => c.isDigit) then
    some (s.foldl (fun a c => 10 * a + (c.toNat - 48)) 0)
  else none

/-- `uri.port`: `none` when the decomposition carries no port token (the
faithful `SplitResult.port is None` case), the decimal value when the token
is plain decimal. When a token is present but not plain decimal (or out of
the 0-65535 range) the real `uri.port` raises `ValueError`, which line 155 of
`_parse_dest_url` would propagate to the caller; that raising region is
outside this model (see `parseDecimal`), and every theorem below stays out of
it by assuming `(hostinfoOf netloc).2 = none` or fixing a concrete decimal
token. -/
def uriPort (netloc : List Char) : Option Nat :=
  match (hostinfoOf netloc).2 with
  | none => none
  | some s => parseDecimal s

/-- Lines 148-149 of `_parse_dest_url`: if the target has no `"://"` but
contains `":443"`, prepend `"https://"` before decomposition. -/
def applyHttpsHeuristic (dest_url : List Char) : List Char :=
  if containsSeq (("://").data) dest_url = false ∧
      containsSeq ((":443").data) dest_url = true then
    (("https://").data) ++ dest_url
  else dest_url

/-- `_parse_dest_url` (lines 147-159): heuristic, decomposition, then the
default `port = 80` exactly when the port is falsy (`None`, or the unreachable
literal 0) and the scheme is `"http"`; returns `(uri.hostname, port)`. -/
def parse_dest_url (dest_url : List Char) : Option (List Char) × Option Nat :=
  let url := applyHttpsHeuristic dest_url
  let sr := splitScheme url
  let netloc := netlocOf sr.2
  let port0 := uriPort netloc
  let port :=
    if port0 = none ∨ port0 = some 0 then
      if sr.1 = (("http").data) then some 80 else port0
    else port0
  (uriHostname netloc, port)

/-! ## The per-connection supervisor: `pipe` (lines 129-138), `proxy_thread`
(lines 83-121) and `get_dest_socket` (lines 123-127), as traces of the socket
operations they perform. The relay loop's own sends are modelled separately
by `pipe_data` above; here its execution is the single `enterRelay` step. -/

/-- A socket operation performed by `pipe` before/at entering the relay. -/
inductive PipeAction where
  | sendToSrc (data : List Char)
  | sendToDest (data : List Char)
  | enterRelay
deriving DecidableEq

/-- The fixed tunnel acknowledgement of line 131. -/
def connection_established_line : List Char :=
  ("HTTP/1.1 200 Connection established\r\n\r\n").data

/-- Lines 91-93 of `proxy_thread`: the tunnel flag is set exactly when the
parsed request's method is `CONNECT`. -/
def is_https_tunnel_flag (method : List Char) : Bool :=
  decide (method = (("CONNECT").data))

/-- `pipe` (lines 129-138): on the tunnel path `sendall` the fixed 200 line to
the inbound (src) socket, otherwise `sendall` the raw first-request bytes to
the outbound (dest) socket; then run `pipe_data`. -/
def pipe_sends (is_https_tunnel : Bool) (request : List Char) : List PipeAction :=
  (if is_https_tunnel then [PipeAction.sendToSrc connection_established_line]
   else [PipeAction.sendToDest request]) ++ [PipeAction.enterRelay]

/-- A socket operation performed by `proxy_thread`. -/
inductive ThreadAction where
  | recvFromSrc
  | connectToDest
  | pipeAct (a : PipeAction)
  | shutdownDest
  | closeDest
  | shutdownSrc
  | closeSrc
deriving DecidableEq

/-- `proxy_thread` (lines 83-121) with `get_dest_socket` (lines 123-127)
inlined, as the list of socket operations it performs plus a flag telling
whether the thread function returned normally (`true`) or an exception
escaped it (`false`). The thread first `recv`s the request (line 84); request
parsing and `_parse_dest_url` are pure and perform no socket operation.
`get_dest_socket` then calls `dest_socket.connect(...)` (line 125), which
raises on timeout, refusal or resolution failure; nothing in `proxy_thread`
catches that, so on failure the exception propagates out of the thread
function and none of the remaining lines — `pipe` and the shutdown/close
teardown of lines 101-121 — run. On success, `pipe` performs its sends and
the relay, and the teardown follows. -/
def proxy_thread_trace (method request : List Char) (connect_succeeds : Bool) :
    List ThreadAction × Bool :=
  if connect_succeeds then
    ([ThreadAction.recvFromSrc, ThreadAction.connectToDest]
      ++ (pipe_sends (is_https_tunnel_flag method) request).map ThreadAction.pipeAct
      ++ [ThreadAction.shutdownDest, ThreadAction.closeDest,
          ThreadAction.shutdownSrc, ThreadAction.closeSrc], true)
  else
    ([ThreadAction.recvFromSrc, ThreadAction.connectToDest], false)

/-! ## Concrete inputs used by witnesses -/

/-- Dest direction that hard-fails on every read. -/
def destEvW : Nat → RecvResult := fun _ => RecvResult.sockErr

/-- Src direction that yields one nonempty chunk and then goes idle. -/
def srcEvW : Nat → RecvResult :=
  fun i => if i < 1 then RecvResult.ok [7] else RecvResult.ok []

/-- Dest direction that yields one two-byte chunk and then goes idle. -/
def destDataW : Nat → RecvResult :=
  fun i => if i < 1 then RecvResult.ok [1, 2] else RecvResult.ok []

/-- Always-idle direction. -/
def idleEvW : Nat → RecvResult := fun _ => RecvResult.ok []

/-- Dest direction whose second read raises a non-socket exception. -/
def destFatalW : Nat → RecvResult :=
  fun i => if i < 1 then RecvResult.ok [9] else RecvResult.fatal

/-! ## Helper lemmas about the relay loop -/

/-- Unfolding: no fuel left. -/
theorem pipeDataLoop_zero (m : Nat) (d s : Nat → RecvResult) (i c : Nat)
    (acc : List Nat) : pipeDataLoop m d s 0 i c acc = none := rfl

/-- Unfolding: one iteration. -/
theorem pipeDataLoop_succ (m : Nat) (d s : Nat → RecvResult) (fuel i c : Nat)
    (acc : List Nat) :
    pipeDataLoop m d s (fuel + 1) i c acc =
      if (d i).isFatal || (s i).isFatal then some LoopOutcome.exn
      else if (d i).bytes = [] ∧ (s i).bytes = [] then
        if m ≤ c + 1 then some (LoopOutcome.finished acc)
        else pipeDataLoop m d s fuel (i + 1) (c + 1) acc
      else
        pipeDataLoop m d s fuel (i + 1) 0
          (if (d i).bytes = [] then acc else acc ++ (d i).bytes) := rfl

/-- With both directions yielding nothing from `i` on, the loop completes as
soon as the fuel covers the remaining idle cycles. -/
theorem pipeDataLoop_idle_isSome (m : Nat) (d s : Nat → RecvResult) :
    ∀ fuel i c acc, (∀ j, i ≤ j → (d j).bytes = [] ∧ (s j).bytes = []) →
      m ≤ c + fuel → 1 ≤ fuel → (pipeDataLoop m d s fuel i c acc).isSome := by
  intro fuel
  induction fuel with
  | zero => intro i c acc _ _ h1; omega
  | succ f ih =>
    intro i c acc hidle hm _
    rw [pipeDataLoop_succ]
    by_cases hfat : ((d i).isFatal || (s i).isFatal) = true
    · simp [hfat]
    · rw [if_neg hfat, if_pos (hidle i (le_refl i))]
      by_cases hc : m ≤ c + 1
      · simp [hc]
      · rw [if_neg hc]
        exact ih (i + 1) (c + 1) acc (fun j hj => hidle j (by omega))
          (by omega) (by omega)

/-- Termination: if both directions yield nothing from some index `N` on, a
fuel of `M + m + 1` completes the loop from any state whose iteration index
is at most `M` below `N`. -/
theorem pipeDataLoop_isSome_of_idle_from (m N : Nat) (d s : Nat → RecvResult)
    (hidle : ∀ j, N ≤ j → (d j).bytes = [] ∧ (s j).bytes = []) :
    ∀ M fuel i c acc, N ≤ i + M → M + m + 1 ≤ fuel →
      (pipeDataLoop m d s fuel i c acc).isSome := by
  intro M
  induction M with
  | zero =>
    intro fuel i c acc hN hf
    exact pipeDataLoop_idle_isSome m d s fuel i c acc
      (fun j hj => hidle j (by omega)) (by omega) (by omega)
  | succ M ih =>
    intro fuel i c acc hN hf
    by_cases hNi : N ≤ i
    · exact pipeDataLoop_idle_isSome m d s fuel i c acc
        (fun j hj => hidle j (by omega)) (by omega) (by omega)
    · obtain ⟨f, rfl⟩ : ∃ f, fuel = f + 1 := ⟨fuel - 1, by omega⟩
      rw [pipeDataLoop_succ]
      by_cases hfat : ((d i).isFatal || (s i).isFatal) = true
      · simp [hfat]
      · rw [if_neg hfat]
        by_cases hbe : (d i).bytes = [] ∧ (s i).bytes = []
        · rw [if_pos hbe]
          by_cases hc : m ≤ c + 1
          · simp [hc]
          · rw [if_neg hc]
            exact ih f (i + 1) (c + 1) acc (by omega) (by omega)
        · rw [if_neg hbe]
          exact ih f (i + 1) 0 _ (by omega) (by omega)

/-- Invariant: a normal (idle-threshold) completion returns `response_data` =
the starting accumulator followed by the dest→src bytes of the executed
iterations. -/
theorem pipeDataLoop_finished_eq_append (m : Nat) (d s : Nat → RecvResult) :
    ∀ fuel i c acc out,
      pipeDataLoop m d s fuel i c acc = some (LoopOutcome.finished out) →
      ∃ T, out = acc ++ destBytesRange d i T := by
  intro fuel
  induction fuel with
  | zero => intro i c acc out h; rw [pipeDataLoop_zero] at h; exact absurd h (by simp)
  | succ f ih =>
    intro i c acc out h
    rw [pipeDataLoop_succ] at h
    by_cases hfat : ((d i).isFatal || (s i).isFatal) = true
    · rw [if_pos hfat] at h
      exact absurd h (by simp)
    · rw [if_neg hfat] at h
      by_cases hbe : (d i).bytes = [] ∧ (s i).bytes = []
      · rw [if_pos hbe] at h
        by_cases hc : m ≤ c + 1
        · rw [if_pos hc] at h
          refine ⟨0, ?_⟩
          have hout : acc = out := by simpa using h
          simp [destBytesRange, hout]
        · rw [if_neg hc] at h
          obtain ⟨T, hT⟩ := ih (i + 1) (c + 1) acc out h
          exact ⟨T + 1, by simp [destBytesRange, hbe.1, hT]⟩
      · rw [if_neg hbe] at h
        have hacc : (if (d i).bytes = [] then acc else acc ++ (d i).bytes) =
            acc ++ (d i).bytes := by
          by_cases hde : (d i).bytes = [] <;> simp [hde]
        rw [hacc] at h
        obtain ⟨T, hT⟩ := ih (i + 1) 0 _ out h
        exact ⟨T + 1, by simp [destBytesRange, hT, List.append_assoc]⟩

/-- If the loop runs through `k` iterations in which the dest direction keeps
yielding bytes and no exception escapes the inner handlers, and iteration `k`
raises a non-socket exception, the loop result is `exn` (given enough fuel). -/
theorem pipeDataLoop_exn_of_fatal (m : Nat) (d s : Nat → RecvResult) :
    ∀ k i c acc fuel,
      (∀ j, j < k → (d (i + j)).isFatal = false ∧ (s (i + j)).isFatal = false ∧
        (d (i + j)).bytes ≠ []) →
      ((d (i + k)).isFatal = true ∨ (s (i + k)).isFatal = true) →
      k + 1 ≤ fuel →
      pipeDataLoop m d s fuel i c acc = some LoopOutcome.exn := by
  intro k
  induction k with
  | zero =>
    intro i c acc fuel _ hfat hfuel
    obtain ⟨f, rfl⟩ : ∃ f, fuel = f + 1 := ⟨fuel - 1, by omega⟩
    rw [pipeDataLoop_succ, if_pos]
    rcases hfat with h | h
    · simp only [Nat.add_zero] at h
      simp [h]
    · simp only [Nat.add_zero] at h
      simp [h]
  | succ k ih =>
    intro i c acc fuel hpre hfat hfuel
    obtain ⟨f, rfl⟩ : ∃ f, fuel = f + 1 := ⟨fuel - 1, by omega⟩
    have h0 := hpre 0 (by omega)
    simp only [Nat.add_zero] at h0
    rw [pipeDataLoop_succ]
    rw [if_neg (by simp [h0.1, h0.2.1])]
    rw [if_neg (fun hc => h0.2.2 hc.1)]
    refine ih (i + 1) 0 _ f (fun j hj => ?_) ?_ (by omega)
    · have := hpre (j + 1) (by omega)
      have harith : i + (j + 1) = i + 1 + j := by omega
      rwa [harith] at this
    · have harith : i + (k + 1) = i + 1 + k := by omega
      rwa [harith] at hfat

/-- The loop's behaviour depends on the event streams only through the bytes
contributed and the fatality flag of each iteration. -/
theorem pipeDataLoop_congr (m : Nat) (d d' s s' : Nat → RecvResult)
    (hd : ∀ i, (d i).bytes = (d' i).bytes ∧ (d i).isFatal = (d' i).isFatal)
    (hs : ∀ i, (s i).bytes = (s' i).bytes ∧ (s i).isFatal = (s' i).isFatal) :
    ∀ fuel i c acc,
      pipeDataLoop m d s fuel i c acc = pipeDataLoop m d' s' fuel i c acc := by
  intro fuel
  induction fuel with
  | zero => intro i c acc; rfl
  | succ f ih =>
    intro i c acc
    rw [pipeDataLoop_succ, pipeDataLoop_succ, (hd i).1, (hd i).2, (hs i).1,
      (hs i).2]
    simp only [ih]

/-- Exact completion point in an all-idle zone: with both directions yielding
nothing (and no exception) from `i` on, the loop finishes with the current
accumulator after `max 1 (m - c)` further iterations, and returns `none` on
any smaller fuel. -/
theorem pipeDataLoop_idle_exact (m : Nat) (d s : Nat → RecvResult) :
    ∀ fuel i c acc,
      (∀ j, i ≤ j → (d j).isFatal = false ∧ (d j).bytes = [] ∧
        (s j).isFatal = false ∧ (s j).bytes = []) →
      pipeDataLoop m d s fuel i c acc =
        if max 1 (m - c) ≤ fuel then some (LoopOutcome.finished acc)
        else none := by
  intro fuel
  induction fuel with
  | zero =>
    intro i c acc _
    rw [pipeDataLoop_zero, if_neg (by omega)]
  | succ f ih =>
    intro i c acc hidle
    have h0 := hidle i (le_refl i)
    rw [pipeDataLoop_succ]
    rw [if_neg (by simp [h0.1, h0.2.2.1])]
    rw [if_pos ⟨h0.2.1, h0.2.2.2⟩]
    by_cases hc : m ≤ c + 1
    · rw [if_pos hc, if_pos (by omega)]
    · rw [if_neg hc, ih (i + 1) (c + 1) acc (fun j hj => hidle j (by omega))]
      by_cases hf : max 1 (m - (c + 1)) ≤ f
      · rw [if_pos hf, if_pos (by omega)]
      · rw [if_neg hf, if_neg (by omega)]

/-- Exact run length when the dest direction hard-fails on every read while
the src direction stays active through iteration `M - 1` and then goes idle:
starting at any iteration `i ≤ M` with a zero idle counter, the loop keeps
servicing the src direction for the remaining `M - i` active iterations, then
needs `max 1 m` idle cycles; the accumulator never grows. -/
theorem pipeDataLoop_destErr_exact (m M : Nat) (d s : Nat → RecvResult)
    (hd : ∀ i, d i = RecvResult.sockErr)
    (hsf : ∀ i, (s i).isFatal = false)
    (hs1 : ∀ i, i < M → (s i).bytes ≠ [])
    (hs2 : ∀ i, M ≤ i → (s i).bytes = []) :
    ∀ fuel i acc, i ≤ M →
      pipeDataLoop m d s fuel i 0 acc =
        if (M - i) + max 1 m ≤ fuel then some (LoopOutcome.finished acc)
        else none := by
  intro fuel
  induction fuel with
  | zero =>
    intro i acc _
    rw [pipeDataLoop_zero, if_neg (by omega)]
  | succ f ih =>
    intro i acc hi
    by_cases hiM : i = M
    · subst hiM
      rw [pipeDataLoop_idle_exact m d s (f + 1) i 0 acc
        (fun j hj => ⟨by rw [hd j]; rfl, by rw [hd j]; rfl, hsf j, hs2 j hj⟩)]
      have : i - i = 0 := by omega
      rw [this, Nat.zero_add, Nat.sub_zero]
    · have hiM' : i < M := by omega
      rw [pipeDataLoop_succ]
      rw [if_neg (by rw [hd i, hsf i]; decide)]
      rw [if_neg (fun hc => hs1 i hiM' hc.2)]
      have hacc : (if (d i).bytes = [] then acc else acc ++ (d i).bytes) = acc := by
        rw [hd i]; rfl
      rw [hacc, ih (i + 1) acc (by omega)]
      by_cases hf : (M - (i + 1)) + max 1 m ≤ f
      · rw [if_pos hf, if_pos (by omega)]
      · rw [if_neg hf, if_neg (by omega)]

/-! ## Helper lemmas about decimal port strings -/

/-- Codepoint of a digit character. -/
theorem digitChar_toNat (d : Nat) (h : d < 10) : (digitChar d).toNat = 48 + d := by
  interval_cases d <;> rfl

/-- A decimal string is never empty. -/
theorem natDec_ne_nil (n : Nat) : natDec n ≠ [] := by
  rw [natDec]
  by_cases h : n < 10 <;> simp [h]

/-- Evaluating the decimal string of `n` starting from accumulator `a`. -/
theorem decDigitsFrom_natDec (n : Nat) :
    ∀ a, decDigitsFrom a (natDec n) = a * 10 ^ (natDec n).length + n := by
  induction n using Nat.strong_induction_on with
  | _ n ih =>
    intro a
    rw [natDec]
    by_cases h : n < 10
    · simp only [h, dif_pos]
      simp [decDigitsFrom, List.foldl, digitChar_toNat n h]
      ring
    · simp only [h, dif_neg, not_false_iff]
      have hdiv : n / 10 < n := Nat.div_lt_self (by omega) (by omega)
      rw [decDigitsFrom, List.foldl_append]
      have hmod : n % 10 < 10 := Nat.mod_lt n (by omega)
      have h1 : List.foldl (fun x c => 10 * x + (c.toNat - 48)) a (natDec (n / 10)) =
          a * 10 ^ (natDec (n / 10)).length + n / 10 := ih (n / 10) hdiv a
      rw [h1]
      simp only [List.foldl, List.length_append, List.length_cons,
        List.length_nil]
      rw [digitChar_toNat (n % 10) hmod]
      have h2 : 10 * (a * 10 ^ (natDec (n / 10)).length + n / 10) +
          (48 + n % 10 - 48) =
          a * 10 ^ ((natDec (n / 10)).length + (0 + 1)) + (10 * (n / 10) + n % 10) := by
        rw [Nat.add_sub_cancel_left]
        ring
      rw [h2, Nat.div_add_mod]

/-- Python's decimal `str` is injective on non-negative integers. -/
theorem natDec_inj (n k : Nat) (h : natDec n = natDec k) : n = k := by
  have hn := decDigitsFrom_natDec n 0
  have hk := decDigitsFrom_natDec k 0
  rw [Nat.zero_mul, Nat.zero_add] at hn hk
  rw [← hn, ← hk, h]

/-- A decimal string is never the wildcard token `"*"`. -/
theorem natDec_ne_star (n : Nat) : natDec n ≠ ['*'] := by
  rw [natDec]
  by_cases h : n < 10
  · simp only [h, dif_pos]
    intro hc
    have h1 : digitChar n = '*' := by simpa using hc
    have h2 : (digitChar n).toNat = 42 := by rw [h1]; rfl
    rw [digitChar_toNat n h] at h2
    omega
  · simp only [h, dif_neg, not_false_iff]
    intro hc
    have hlen := congrArg List.length hc
    simp only [List.length_append, List.length_cons, List.length_nil] at hlen
    have : natDec (n / 10) = [] := List.eq_nil_of_length_eq_zero (by omega)
    exact natDec_ne_nil (n / 10) this

/-! ## Claim theorems -/

/-- C9 counterexample: the claim says the computed idle threshold is never
less than 1, but the code's derivation `4 // dct // 2` has no minimum clamp —
at a connect timeout of 3 it computes 0, which is less than 1. -/
theorem c9_threshold_no_minimum_counterexample :
    max_pipe_timeout 3 = 0 ∧ ¬1 ≤ max_pipe_timeout 3 := by decide

/-- C9 (amended): at the design-default connect timeout of 1 the computed
idle-cycle threshold equals 2; however the computation has no minimum clamp:
for any connect timeout of 3 or more it computes 0 (less than 1). -/
theorem c9_threshold_value :
    max_pipe_timeout dest_connection_timeout = 2 ∧
      ∀ t, 3 ≤ t → max_pipe_timeout t = 0 := by
  constructor
  · rfl
  · intro t ht
    unfold max_pipe_timeout
    have h1 : 4 / t < 2 := Nat.div_lt_of_lt_mul (by omega)
    exact Nat.div_eq_of_lt h1

/-- Witness for C9 (amended) at the concrete connect timeout 4. -/
theorem c9_threshold_value_witness : max_pipe_timeout 4 = 0 :=
  c9_threshold_value.2 4 (by omega)

/-- C4: when the first request's method is `CONNECT`, `pipe` sends exactly
`HTTP/1.1 200 Connection established\r\n\r\n` to the inbound socket and then
enters the relay, sending nothing to the outbound socket first; for any other
method it sends the raw request bytes unmodified to the outbound socket and
then enters the relay, sending nothing to the inbound socket first. -/
theorem c4_pipe_first_send :
    ∀ method request : List Char,
      (pipe_sends (is_https_tunnel_flag method) request =
        if method = (("CONNECT").data) then
          [PipeAction.sendToSrc connection_established_line, PipeAction.enterRelay]
        else [PipeAction.sendToDest request, PipeAction.enterRelay]) ∧
      (∀ data, PipeAction.sendToDest data ∉
        pipe_sends (is_https_tunnel_flag (("CONNECT").data)) request) ∧
      (method ≠ (("CONNECT").data) →
        ∀ data, PipeAction.sendToSrc data ∉
          pipe_sends (is_https_tunnel_flag method) request) := by
  intro method request
  refine ⟨?_, ?_, ?_⟩
  · by_cases h : method = (("CONNECT").data) <;>
      simp [pipe_sends, is_https_tunnel_flag, h]
  · intro data
    simp [pipe_sends, is_https_tunnel_flag]
  · intro h data
    simp [pipe_sends, is_https_tunnel_flag, h]

/-- Witness for C4 at the concrete method `GET`: no bytes go to the inbound
socket before the relay. -/
theorem c4_pipe_first_send_witness :
    PipeAction.sendToSrc connection_established_line ∉
      pipe_sends (is_https_tunnel_flag (("GET").data))
        (("GET http://h/ HTTP/1.1\r\n\r\n").data) :=
  (c4_pipe_first_send (("GET").data) (("GET http://h/ HTTP/1.1\r\n\r\n").data)).2.2
    (by decide) connection_established_line

/-- C8 counterexample: on a failed outbound connect the handler performs no
close of the inbound socket — the trace stops right after the connect attempt
and the exception escapes the thread function (`closeSrc` from the teardown
in lines 112-121 never happens), contradicting the claim that the handler
closes the inbound socket. -/
theorem c8_connect_failure_counterexample :
    (proxy_thread_trace (("GET").data)
        (("GET http://example.com/ HTTP/1.1\r\n\r\n").data) false).1 =
      [ThreadAction.recvFromSrc, ThreadAction.connectToDest] ∧
    ThreadAction.closeSrc ∉ (proxy_thread_trace (("GET").data)
        (("GET http://example.com/ HTTP/1.1\r\n\r\n").data) false).1 ∧
    (proxy_thread_trace (("GET").data)
        (("GET http://example.com/ HTTP/1.1\r\n\r\n").data) false).2 = false := by
  refine ⟨rfl, by decide, rfl⟩

/-- C8 (amended): when opening the outbound connection fails, the handler has
sent nothing to the client, attempted the connect exactly once (no retry),
and then the exception propagates out of the thread function — the
connection is abandoned with no teardown at all, so the inbound socket is
not explicitly closed. -/
theorem c8_connect_failure_behavior :
    ∀ method request : List Char,
      (proxy_thread_trace method request false).1 =
        [ThreadAction.recvFromSrc, ThreadAction.connectToDest] ∧
      (∀ data, ThreadAction.pipeAct (PipeAction.sendToSrc data) ∉
        (proxy_thread_trace method request false).1) ∧
      (proxy_thread_trace method request false).1.count ThreadAction.connectToDest = 1 ∧
      ThreadAction.closeSrc ∉ (proxy_thread_trace method request false).1 ∧
      (proxy_thread_trace method request false).2 = false := by
  intro method request
  have htr : (proxy_thread_trace method request false).1 =
      [ThreadAction.recvFromSrc, ThreadAction.connectToDest] := rfl
  refine ⟨rfl, ?_, ?_, ?_, rfl⟩
  · intro data
    rw [htr]
    simp
  · rw [htr]
    decide
  · rw [htr]
    decide

/-- C2: a connection is rejected iff the block table is enabled (nonempty
configured block list) and some block rule matches, or the allow table is
enabled and no allow rule matches; a block-table match rejects regardless of
the allow table, and with both tables disabled every connection is
permitted. -/
theorem c2_listen_access_decision :
    (∀ allowed blocked : List (IPNetwork × PortIn), ∀ host port : Nat,
      (listen_admits allowed blocked host port = false ↔
        (blocked ≠ [] ∧
          is_testee_in_access_table (get_init_access_table blocked) host port = true) ∨
        (allowed ≠ [] ∧
          is_testee_in_access_table (get_init_access_table allowed) host port = false))) ∧
    (∀ allowed blocked : List (IPNetwork × PortIn), ∀ host port : Nat,
      blocked ≠ [] →
      is_testee_in_access_table (get_init_access_table blocked) host port = true →
      listen_admits allowed blocked host port = false) ∧
    (∀ host port : Nat, listen_admits [] [] host port = true) := by
  refine ⟨?_, ?_, ?_⟩
  · intro allowed blocked host port
    unfold listen_admits
    by_cases hb : blocked = [] <;> by_cases ha : allowed = [] <;>
      by_cases hbt : is_testee_in_access_table (get_init_access_table blocked)
        host port = true <;>
      by_cases hat : is_testee_in_access_table (get_init_access_table allowed)
        host port = true <;>
      simp [hb, ha, hbt, hat]
  · intro allowed blocked host port hb hbt
    unfold listen_admits
    rw [if_pos (by simp [hb, hbt])]
  · intro host port
    unfold listen_admits
    simp

/-- Witness for C2: block precedence at a concrete configuration — the block
rule `10.0.0.0/8, *` rejects the client `10.1.2.3:40000` even though an allow
rule (`10.1.2.3/32, *`) matches it. -/
theorem c2_listen_access_decision_witness :
    listen_admits [(host_network 167838211, PortIn.star)]
      [(⟨167772160, 8⟩, PortIn.star)] 167838211 40000 = false :=
  c2_listen_access_decision.2.1 [(host_network 167838211, PortIn.star)]
    [(⟨167772160, 8⟩, PortIn.star)] 167838211 40000 (by decide) (by decide)

/-- C3: a table entry hits a candidate `(host, port)` iff its network is a
supernet of (or equal to) the /32 network of the host and its port-string
list contains the wildcard or the decimal string of the candidate port; in
particular a wildcard-port rule matches every port of an address its prefix
contains, and a concrete-port rule matches exactly that port. -/
theorem c3_rule_match_characterization :
    (∀ accesses : List (IPNetwork × List (List Char)), ∀ host port : Nat,
      (is_testee_in_access_table accesses host port = true ↔
        ∃ e ∈ accesses, supernet_of e.1 (host_network host) = true ∧
          (['*'] ∈ e.2 ∨ natDec port ∈ e.2))) ∧
    (∀ net : IPNetwork, ∀ h p : Nat,
      is_testee_in_access_table [(net, [['*']])] h p =
        supernet_of net (host_network h)) ∧
    (∀ net : IPNetwork, ∀ c h p : Nat,
      is_testee_in_access_table [(net, [natDec c])] h p =
        (supernet_of net (host_network h) && decide (p = c))) := by
  refine ⟨?_, ?_, ?_⟩
  · intro accesses host port
    unfold is_testee_in_access_table
    rw [List.any_eq_true]
    constructor
    · rintro ⟨e, he, hinner⟩
      rw [List.any_eq_true] at hinner
      obtain ⟨ap, hap, hcond⟩ := hinner
      rw [Bool.and_eq_true, Bool.or_eq_true, decide_eq_true_iff,
        decide_eq_true_iff] at hcond
      obtain ⟨hsup, hor⟩ := hcond
      refine ⟨e, he, hsup, ?_⟩
      rcases hor with h | h
      · exact Or.inl (h ▸ hap)
      · exact Or.inr (h ▸ hap)
    · rintro ⟨e, he, hsup, hmem⟩
      refine ⟨e, he, ?_⟩
      rw [List.any_eq_true]
      rcases hmem with h | h
      · exact ⟨['*'], h, by simp [hsup]⟩
      · exact ⟨natDec port, h, by simp [hsup]⟩
  · intro net h p
    unfold is_testee_in_access_table
    simp [natDec_ne_star p]
  · intro net c h p
    unfold is_testee_in_access_table
    simp only [List.any_cons, List.any_nil, Bool.or_false]
    have h1 : decide (natDec c = ['*']) = false := by
      simp [natDec_ne_star c]
    rw [h1, Bool.false_or]
    by_cases hpc : p = c
    · subst hpc
      simp
    · have h2 : decide (natDec p = natDec c) = false := by
        simp only [decide_eq_false_iff_not]
        exact fun hh => hpc (natDec_inj p c hh)
      rw [h2]
      simp [hpc]

/-- C1: in the relay loop the single idle counter increments exactly when
both directions yielded zero bytes in the same iteration, resets to zero
whenever either direction yielded bytes, and the loop breaks as soon as the
incremented counter reaches the threshold; consequently, for every pair of
streams that eventually yield no further bytes in either direction the loop
terminates (some fuel bound suffices). -/
theorem c1_idle_counter_and_termination :
    ∀ m : Nat, ∀ destEv srcEv : Nat → RecvResult,
      (∀ fuel i c acc, (destEv i).isFatal = false → (srcEv i).isFatal = false →
        (destEv i).bytes = [] → (srcEv i).bytes = [] →
        pipeDataLoop m destEv srcEv (fuel + 1) i c acc =
          if m ≤ c + 1 then some (LoopOutcome.finished acc)
          else pipeDataLoop m destEv srcEv fuel (i + 1) (c + 1) acc) ∧
      (∀ fuel i c acc, (destEv i).isFatal = false → (srcEv i).isFatal = false →
        ((destEv i).bytes ≠ [] ∨ (srcEv i).bytes ≠ []) →
        pipeDataLoop m destEv srcEv (fuel + 1) i c acc =
          pipeDataLoop m destEv srcEv fuel (i + 1) 0
            (if (destEv i).bytes = [] then acc else acc ++ (destEv i).bytes)) ∧
      (∀ N, (∀ j, N ≤ j → (destEv j).bytes = [] ∧ (srcEv j).bytes = []) →
        ∃ fuel, (pipe_data m destEv srcEv fuel).isSome) := by
  intro m destEv srcEv
  refine ⟨?_, ?_, ?_⟩
  · intro fuel i c acc hdf hsf hde hse
    rw [pipeDataLoop_succ, if_neg (by simp [hdf, hsf]), if_pos ⟨hde, hse⟩]
  · intro fuel i c acc hdf hsf hne
    rw [pipeDataLoop_succ, if_neg (by simp [hdf, hsf]), if_neg (by tauto)]
  · intro N hidle
    refine ⟨N + m + 1, ?_⟩
    have h := pipeDataLoop_isSome_of_idle_from m N destEv srcEv hidle N
      (N + m + 1) 0 0 [] (by omega) (by omega)
    obtain ⟨v, hv⟩ := Option.isSome_iff_exists.mp h
    simp [pipe_data, hv]

/-- Witness for C1: a concrete idle iteration with counter 1 against
threshold 2 takes the break. -/
theorem c1_idle_counter_and_termination_witness :
    pipeDataLoop 2 idleEvW idleEvW 1 5 1 [] = some (LoopOutcome.finished []) := by
  have h := (c1_idle_counter_and_termination 2 idleEvW idleEvW).1 0 5 1 []
    (by decide) (by decide) (by decide) (by decide)
  simpa using h

/-- C6: `pipe_data` never raises (it always hands back a plain byte string):
a normal idle-threshold completion returns exactly the concatenation of the
dest→src bytes of the executed iterations; an exception reaching the outer
handler — even after iterations that accumulated bytes — makes it return the
empty byte string; and eventually-idle streams always terminate with some
returned byte string. -/
theorem c6_pipe_data_return_contract :
    ∀ m : Nat, ∀ destEv srcEv : Nat → RecvResult,
      (∀ fuel out,
        pipeDataLoop m destEv srcEv fuel 0 0 [] = some (LoopOutcome.finished out) →
        pipe_data m destEv srcEv fuel = some out ∧
          ∃ T, out = destBytesRange destEv 0 T) ∧
      (∀ k fuel,
        (∀ j, j < k → (destEv j).isFatal = false ∧ (srcEv j).isFatal = false ∧
          (destEv j).bytes ≠ []) →
        ((destEv k).isFatal = true ∨ (srcEv k).isFatal = true) → k + 1 ≤ fuel →
        pipe_data m destEv srcEv fuel = some []) ∧
      (∀ N, (∀ j, N ≤ j → (destEv j).bytes = [] ∧ (srcEv j).bytes = []) →
        ∃ fuel bytes, pipe_data m destEv srcEv fuel = some bytes) := by
  intro m d s
  refine ⟨?_, ?_, ?_⟩
  · intro fuel out h
    refine ⟨by simp [pipe_data, h], ?_⟩
    obtain ⟨T, hT⟩ := pipeDataLoop_finished_eq_append m d s fuel 0 0 [] out h
    exact ⟨T, by simpa using hT⟩
  · intro k fuel hpre hfat hfuel
    have h := pipeDataLoop_exn_of_fatal m d s k 0 0 [] fuel
      (fun j hj => by simpa using hpre j hj) (by simpa using hfat) hfuel
    simp [pipe_data, h]
  · intro N hidle
    have h := pipeDataLoop_isSome_of_idle_from m N d s hidle N (N + m + 1)
      0 0 [] (by omega) (by omega)
    obtain ⟨v, hv⟩ := Option.isSome_iff_exists.mp h
    cases v with
    | finished data => exact ⟨N + m + 1, data, by simp [pipe_data, hv]⟩
    | exn => exact ⟨N + m + 1, [], by simp [pipe_data, hv]⟩

/-- Witness for C6: a stream that delivers `[1, 2]` from the destination and
then idles makes `pipe_data` return exactly those bytes. -/
theorem c6_pipe_data_return_contract_witness :
    pipe_data 2 destDataW idleEvW 3 = some [1, 2] :=
  ((c6_pipe_data_return_contract 2 destDataW idleEvW).1 3 [1, 2] (by decide)).1

/-- C7: a `socket.error` on a read (timeout or hard failure) is treated
exactly like a zero-byte read — the loop's result only depends on the bytes
contributed and on whether a non-socket exception escaped, so replacing any
`sockErr` events by `ok b""` events changes nothing; and when one direction
hard-fails on every read while the other stays active through iteration
`M - 1` and then idles, the loop keeps running for exactly those `M` active
iterations plus the idle threshold — it services the live direction to the
end, the failed direction contributing no bytes at all. -/
theorem c7_direction_error_handling :
    (RecvResult.sockErr.bytes = (RecvResult.ok []).bytes ∧
      RecvResult.sockErr.isFatal = (RecvResult.ok []).isFatal) ∧
    (∀ m : Nat, ∀ d d' s s' : Nat → RecvResult,
      (∀ i, (d i).bytes = (d' i).bytes ∧ (d i).isFatal = (d' i).isFatal) →
      (∀ i, (s i).bytes = (s' i).bytes ∧ (s i).isFatal = (s' i).isFatal) →
      ∀ fuel i c acc,
        pipeDataLoop m d s fuel i c acc = pipeDataLoop m d' s' fuel i c acc) ∧
    (∀ m M : Nat, ∀ d s : Nat → RecvResult, 1 ≤ m →
      (∀ i, d i = RecvResult.sockErr) →
      (∀ i, (s i).isFatal = false) →
      (∀ i, i < M → (s i).bytes ≠ []) →
      (∀ i, M ≤ i → (s i).bytes = []) →
      ∀ fuel, pipe_data m d s fuel =
        if M + m ≤ fuel then some [] else none) := by
  refine ⟨⟨rfl, rfl⟩, ?_, ?_⟩
  · intro m d d' s s' hd hs fuel i c acc
    exact pipeDataLoop_congr m d d' s s' hd hs fuel i c acc
  · intro m M d s hm hd hsf hs1 hs2 fuel
    unfold pipe_data
    rw [pipeDataLoop_destErr_exact m M d s hd hsf hs1 hs2 fuel 0 [] (by omega)]
    have hmax : max 1 m = m := by omega
    rw [Nat.sub_zero, hmax]
    by_cases hf : M + m ≤ fuel
    · rw [if_pos hf, if_pos hf]
      rfl
    · rw [if_neg hf, if_neg hf]
      rfl

/-- Witness for C7: dest hard-fails on every read, src delivers one chunk and
then idles; with threshold 2 the loop needs exactly 3 iterations. -/
theorem c7_direction_error_handling_witness :
    pipe_data 2 destEvW srcEvW 3 = some [] ∧ pipe_data 2 destEvW srcEvW 2 = none := by
  have h := c7_direction_error_handling.2.2 2 1 destEvW srcEvW (by omega)
    (fun i => rfl)
    (fun i => by by_cases hi : i < 1 <;> simp [srcEvW, hi] <;> rfl)
    (fun i hi => by
      have h0 : i = 0 := by omega
      subst h0
      decide)
    (fun i hi => by
      unfold srcEvW
      rw [if_neg (by omega)]
      rfl)
  constructor
  · rw [h 3]
    norm_num
  · rw [h 2]
    norm_num

/-! ## Helper lemmas about the URL model -/

/-- Unfolding: scheme scan on the empty list. -/
theorem splitSchemeAux_nil (acc : List Char) : splitSchemeAux acc [] = none := rfl

/-- Unfolding: scheme scan step. -/
theorem splitSchemeAux_cons (acc : List Char) (c : Char) (rest : List Char) :
    splitSchemeAux acc (c :: rest) =
      if c = ':' then
        if acc ≠ [] ∧ acc.all (fun a => schemeChars.contains a) then some (acc, rest)
        else none
      else splitSchemeAux (acc ++ [c]) rest := rfl

/-- Scheme scan of `host ++ ':' :: port` when `host` has no colon: the first
colon is the separator, so a split happens exactly when the accumulated
prefix together with `host` is a nonempty all-scheme-chars string. -/
theorem splitSchemeAux_no_colon (host : List Char) :
    ∀ acc port, (∀ c ∈ host, c ≠ ':') →
      splitSchemeAux acc (host ++ ':' :: port) =
        if acc ++ host ≠ [] ∧
            (acc ++ host).all (fun a => schemeChars.contains a) then
          some (acc ++ host, port)
        else none := by
  induction host with
  | nil =>
    intro acc port _
    simp only [List.nil_append, List.append_nil]
    rw [splitSchemeAux_cons, if_pos rfl]
  | cons c cs ih =>
    intro acc port hnc
    have hc : c ≠ ':' := hnc c (List.mem_cons_self c cs)
    rw [List.cons_append, splitSchemeAux_cons, if_neg hc]
    rw [ih (acc ++ [c]) port (fun x hx => hnc x (List.mem_cons_of_mem c hx))]
    simp [List.append_assoc]

/-- A list of decimal digits never starts with `"//"`. -/
theorem startsWith_slashes_digits (l : List Char)
    (h : l.all (fun c => c.isDigit) = true) :
    startsWithCh (("//").data) l = false := by
  cases l with
  | nil => rfl
  | cons c t =>
    have hc : c.isDigit = true := by
      rw [List.all_cons, Bool.and_eq_true] at h
      exact h.1
    have hd : decide ('/' = c) = false := by
      apply decide_eq_false
      intro hh
      rw [← hh] at hc
      exact absurd hc (by decide)
    show (decide ('/' = c) && startsWithCh ['/'] t) = false
    rw [hd, Bool.false_and]

/-- A list whose head is not `'/'` never starts with `"//"`. -/
theorem startsWith_slashes_head (c : Char) (t : List Char) (h : c ≠ '/') :
    startsWithCh (("//").data) (c :: t) = false := by
  have hd : decide ('/' = c) = false := decide_eq_false (fun hh => h hh.symm)
  show (decide ('/' = c) && startsWithCh ['/'] t) = false
  rw [hd, Bool.false_and]

/-- The hostname and port of an empty netloc are both absent. -/
theorem hostinfoOf_nil : hostinfoOf [] = ([], none) := rfl

/-- `uriHostname` of an empty netloc is `None`. -/
theorem uriHostname_nil : uriHostname [] = none := rfl

/-- `uriPort` of an empty netloc is `None`. -/
theorem uriPort_nil : uriPort [] = none := rfl

/-- Unfolding of `parse_dest_url` with its locals expanded. -/
theorem parse_dest_url_eq (dest_url : List Char) :
    parse_dest_url dest_url =
      (uriHostname (netlocOf (splitScheme (applyHttpsHeuristic dest_url)).2),
       if uriPort (netlocOf (splitScheme (applyHttpsHeuristic dest_url)).2) = none ∨
          uriPort (netlocOf (splitScheme (applyHttpsHeuristic dest_url)).2) = some 0 then
         if (splitScheme (applyHttpsHeuristic dest_url)).1 = (("http").data) then some 80
         else uriPort (netlocOf (splitScheme (applyHttpsHeuristic dest_url)).2)
       else uriPort (netlocOf (splitScheme (applyHttpsHeuristic dest_url)).2)) := rfl

/-- C5: the CONNECT authority `example.com:443` resolves to host
`example.com` and port 443; any target whose decomposition (after the
https-prepend heuristic) carries no port token and has scheme `http` gets
the default port 80; and in every other case where the decomposition
carries no port token the returned port is `None`. The no-port hypothesis
is stated on the raw decomposition, `(hostinfoOf ...).2 = none` — i.e.
`SplitResult.port is None` because no token is present — so both general
parts stay strictly inside the region where the port model matches CPython
(a present non-decimal token, where `uri.port` raises instead, is excluded;
see `uriPort`). -/
theorem c5_resolver :
    (parse_dest_url (("example.com:443").data) =
      (some (("example.com").data), some 443)) ∧
    (∀ dest_url : List Char,
      (splitScheme (applyHttpsHeuristic dest_url)).1 = (("http").data) →
      (hostinfoOf (netlocOf (splitScheme (applyHttpsHeuristic dest_url)).2)).2 =
        none →
      (parse_dest_url dest_url).2 = some 80) ∧
    (∀ dest_url : List Char,
      (splitScheme (applyHttpsHeuristic dest_url)).1 ≠ (("http").data) →
      (hostinfoOf (netlocOf (splitScheme (applyHttpsHeuristic dest_url)).2)).2 =
        none →
      (parse_dest_url dest_url).2 = none) := by
  refine ⟨by decide, ?_, ?_⟩
  · intro dest_url hscheme htok
    have hport :
        uriPort (netlocOf (splitScheme (applyHttpsHeuristic dest_url)).2) =
          none := by
      unfold uriPort
      rw [htok]
    rw [parse_dest_url_eq]
    simp [hport, hscheme]
  · intro dest_url hscheme htok
    have hport :
        uriPort (netlocOf (splitScheme (applyHttpsHeuristic dest_url)).2) =
          none := by
      unfold uriPort
      rw [htok]
    rw [parse_dest_url_eq]
    simp [hport, hscheme]

/-- Witness for C5 at the spec's own examples: `http://example.com/path`
resolves to port 80; `https://example.com/` has no port and resolves to
`None`. -/
theorem c5_resolver_witness :
    (parse_dest_url (("http://example.com/path").data)).2 = some 80 ∧
    (parse_dest_url (("https://example.com/").data)).2 = none := by
  constructor
  · exact c5_resolver.2.1 (("http://example.com/path").data) (by decide) (by decide)
  · exact c5_resolver.2.2 (("https://example.com/").data) (by decide) (by decide)

/-- C10 counterexample: `http:8080` is an authority-form `host:port` target
with no `"://"` and no `":443"`, yet `_parse_dest_url` does not return
`(None, None)` for it — the text before the colon is split off as the scheme
`http`, so the port defaults to 80 and `(None, 80)` is returned. -/
theorem c10_authority_counterexample :
    parse_dest_url (("http:8080").data) = (none, some 80) ∧
    containsSeq (("://").data) (("http:8080").data) = false ∧
    containsSeq ((":443").data) (("http:8080").data) = false ∧
    parse_dest_url (("http:8080").data) ≠ (none, none) := by
  refine ⟨by decide, by decide, by decide, by decide⟩

/-- C10 (amended): for every authority-form `host:port` target — nonempty
host without `':'` or `'/'`, all-decimal port — that contains no `"://"` and
no `":443"`, and whose host does not lowercase to the literal `http`,
`_parse_dest_url` returns host `None` and port `None`: the https heuristic
does not fire and generic URL decomposition treats the text before the colon
as a scheme (or, for hosts with non-scheme characters, as part of the path),
so no netloc and hence no host is recovered. When the host is literally
`http` the hostname is still `None` but the port defaults to 80. -/
theorem c10_authority_no_host :
    ∀ host port : List Char,
      host ≠ [] →
      (∀ c ∈ host, c ≠ ':' ∧ c ≠ '/') →
      port.all (fun c => c.isDigit) = true →
      containsSeq (("://").data) (host ++ ':' :: port) = false →
      containsSeq ((":443").data) (host ++ ':' :: port) = false →
      host.map Char.toLower ≠ (("http").data) →
      parse_dest_url (host ++ ':' :: port) = (none, none) := by
  intro host port hne hchars hdig _hsep h443 hlow
  have hheur : applyHttpsHeuristic (host ++ ':' :: port) = host ++ ':' :: port := by
    unfold applyHttpsHeuristic
    rw [if_neg]
    intro hc
    rw [h443] at hc
    exact absurd hc.2 (by simp)
  have haux := splitSchemeAux_no_colon host [] port (fun c hc => (hchars c hc).1)
  simp only [List.nil_append] at haux
  rw [parse_dest_url_eq, hheur]
  by_cases hsch : host ≠ [] ∧ host.all (fun a => schemeChars.contains a)
  · have hsplit : splitScheme (host ++ ':' :: port) =
        (host.map Char.toLower, port) := by
      unfold splitScheme
      rw [haux, if_pos hsch]
    have hnet : netlocOf port = [] := by
      unfold netlocOf
      rw [startsWith_slashes_digits port hdig]
      simp
    rw [hsplit]
    simp [hnet, uriPort_nil, uriHostname_nil, hlow]
  · have hsplit : splitScheme (host ++ ':' :: port) =
        ([], host ++ ':' :: port) := by
      unfold splitScheme
      rw [haux, if_neg hsch]
    have hnet : netlocOf (host ++ ':' :: port) = [] := by
      cases host with
      | nil => exact absurd rfl hne
      | cons c cs =>
        unfold netlocOf
        rw [List.cons_append, startsWith_slashes_head c (cs ++ ':' :: port)
          (hchars c (List.mem_cons_self c cs)).2]
        simp
    rw [hsplit]
    simp [hnet, uriPort_nil, uriHostname_nil,
      (by decide : ([] : List Char) ≠ (("http").data))]

/-- Witness for C10 (amended) at the concrete target `example.com:8080`. -/
theorem c10_authority_no_host_witness :
    parse_dest_url ((("example.com").data) ++ ':' :: (("8080").data)) =
      (none, none) :=
  c10_authority_no_host (("example.com").data) (("8080").data) (by decide)
    (by decide) (by decide) (by decide) (by decide) (by decide)
